/-
Verification of the termimg media player against its specification.

Each section embeds one module of the Python source as executable Lean
definitions and proves (or refutes) the spec's claims about it:

* `async_video_buffer.py` — the bounded frame FIFO, the extraction loop's
  producer-side drop policy, the preload gate, and the pre-rendering worker;
* `performance_analyzer.py` — adaptive playback parameters;
* `terminal_renderer.py`    — RGB → 256-color quantization;
* `complete_video_renderer.py` — pre-render cancellation and completion;
* `termimg.py`              — the drift-correction step of the playback loop;
* `memory_monitor.py`       — the memory-safety predicate.
-/
import Mathlib

namespace TermImg

/-! ## Bounded FIFO queues (`queue.Queue(maxsize)`)

`AsyncVideoBuffer` stores frames in `queue.Queue(maxsize=max_buffer_size)`.
As used by the code, `put(frame, timeout=...)`/`put(frame, block=False)` on a
full queue raises `queue.Full` and leaves the queue unchanged; otherwise the
frame is appended at the tail.  `get` pops the head, raising `queue.Empty`
when there is nothing to pop.  Queue elements are abstracted to the frame's
sequence index (the position of the raw frame in the decoder's stream). -/

structure BoundedQueue where
  maxsize : Nat
  items : List Nat
deriving DecidableEq, Repr

/-- `put`: append at the tail unless the queue is bounded and full.  Returns
the updated queue and whether the put succeeded (`false` models the
`queue.Full` exception seen by the caller after its timeout). -/
def qPut (q : BoundedQueue) (x : Nat) : BoundedQueue × Bool :=
  if 0 < q.maxsize ∧ q.maxsize ≤ q.items.length then
    (q, false)
  else
    ({ q with items := q.items ++ [x] }, true)

/-- `get`: pop the head, or report `queue.Empty` via `none`. -/
def qGet (q : BoundedQueue) : Option Nat × BoundedQueue :=
  match q.items with
  | [] => (none, q)
  | x :: rest => (some x, { q with items := rest })

/-! ## `AsyncVideoBuffer`: producer, consumer, and pre-render worker

The observable state of one `AsyncVideoBuffer` together with the history of
frames handed out, which is what the ordering claims are about:

* `buffer` is `self.buffer`, `rendered` is `self.rendered_buffer`;
* `nextIndex` is the sequence index of the next frame the extraction loop in
  `_extract_with_ffmpeg` will read from the ffmpeg pipe (the pipe advances
  whether or not the subsequent `put` succeeds);
* `delivered` records, in order, the frames returned by `get_frame`;
* `deliveredRendered` records the frames returned by `get_rendered_frame`;
* `skipped` records the frames discarded by `skip_frames`;
* `skipped_frames` is the `self.skipped_frames` counter. -/

structure BufferState where
  buffer : BoundedQueue
  rendered : BoundedQueue
  nextIndex : Nat
  delivered : List Nat
  deliveredRendered : List Nat
  skipped : List Nat
  skipped_frames : Nat
deriving DecidableEq, Repr

/-- The atomic interleavings of the workers that touch the buffer. -/
inductive BufferOp
  /-- `_extract_with_ffmpeg`: read one raw frame from the pipe and
  `buffer.put(frame, timeout=0.1)`; on `queue.Full` the frame is dropped
  (`continue`) and the loop moves on to the next frame of the stream. -/
  | produce
  /-- `get_frame`: `buffer.get` handing the frame to the renderer. -/
  | consume
  /-- `skip_frames(1)`: `buffer.get(block=False)` discarding the frame and
  incrementing `self.skipped_frames`. -/
  | skip
  /-- One iteration of `_pre_render_frames`: `buffer.get`, then
  `rendered_buffer.put((pixel_data, frame), block=False)`, then — only if that
  put did not raise `queue.Full` — `buffer.put(frame, block=False)`
  re-inserting the frame into the main buffer. -/
  | preRender
  /-- `get_rendered_frame`: `rendered_buffer.get`. -/
  | consumeRendered
deriving DecidableEq, Repr

def applyOp (s : BufferState) : BufferOp → BufferState
  | .produce =>
    { s with buffer := (qPut s.buffer s.nextIndex).1, nextIndex := s.nextIndex + 1 }
  | .consume =>
    match qGet s.buffer with
    | (none, _) => s
    | (some x, b) => { s with buffer := b, delivered := s.delivered ++ [x] }
  | .skip =>
    match qGet s.buffer with
    | (none, _) => s
    | (some x, b) =>
      { s with buffer := b, skipped := s.skipped ++ [x],
               skipped_frames := s.skipped_frames + 1 }
  | .preRender =>
    match qGet s.buffer with
    | (none, _) => s
    | (some x, b) =>
      match qPut s.rendered x with
      | (r, true) => { s with buffer := (qPut b x).1, rendered := r }
      | (_, false) => { s with buffer := b }
  | .consumeRendered =>
    match qGet s.rendered with
    | (none, _) => s
    | (some x, r) =>
      { s with rendered := r, deliveredRendered := s.deliveredRendered ++ [x] }

def applyOps (s : BufferState) (ops : List BufferOp) : BufferState :=
  ops.foldl applyOp s

/-- The state right after `AsyncVideoBuffer.__init__` / `start_extraction`
reset the counters: both queues empty with capacity `C = max_buffer_size`. -/
def initState (C : Nat) : BufferState :=
  { buffer := ⟨C, []⟩, rendered := ⟨C, []⟩, nextIndex := 0,
    delivered := [], deliveredRendered := [], skipped := [],
    skipped_frames := 0 }

/-! ### Queue lemmas -/

theorem qPut_fst_cases (q : BoundedQueue) (x : Nat) :
    (qPut q x).1 = q ∨ (qPut q x).1 = { q with items := q.items ++ [x] } := by
  unfold qPut
  split
  · exact Or.inl rfl
  · exact Or.inr rfl

theorem qPut_maxsize (q : BoundedQueue) (x : Nat) : (qPut q x).1.maxsize = q.maxsize := by
  rcases qPut_fst_cases q x with h | h <;> rw [h]

theorem qPut_length_le (q : BoundedQueue) (x : Nat) (h : q.items.length ≤ q.maxsize)
    (hpos : 0 < q.maxsize) : (qPut q x).1.items.length ≤ q.maxsize := by
  unfold qPut
  split
  · exact h
  · next hfull =>
    simp only [List.length_append, List.length_cons, List.length_nil]
    omega

theorem qPut_full (q : BoundedQueue) (x : Nat) (hpos : 0 < q.maxsize)
    (h : q.items.length = q.maxsize) : qPut q x = (q, false) := by
  unfold qPut
  rw [if_pos ⟨hpos, h.ge⟩]

theorem qGet_none {q b : BoundedQueue} (h : qGet q = (none, b)) : q.items = [] := by
  rcases q with ⟨m, items⟩
  cases items with
  | nil => rfl
  | cons y rest => simp [qGet] at h

theorem qGet_some {q b : BoundedQueue} {x : Nat} (h : qGet q = (some x, b)) :
    q.items = x :: b.items ∧ b.maxsize = q.maxsize := by
  rcases q with ⟨m, items⟩
  cases items with
  | nil => simp [qGet] at h
  | cons y rest =>
    simp only [qGet, Prod.mk.injEq, Option.some.injEq] at h
    obtain ⟨hy, hb⟩ := h
    subst hy
    subst hb
    exact ⟨rfl, rfl⟩

/-! ### Occupancy invariant (C7) -/

/-- Both queue fields keep their capacity and stay within it under every op. -/
theorem applyOp_bounds (C : Nat) (hC : 0 < C) (s : BufferState)
    (hbm : s.buffer.maxsize = C) (hbl : s.buffer.items.length ≤ C)
    (hrm : s.rendered.maxsize = C) (hrl : s.rendered.items.length ≤ C)
    (op : BufferOp) :
    (applyOp s op).buffer.maxsize = C ∧ (applyOp s op).buffer.items.length ≤ C ∧
    (applyOp s op).rendered.maxsize = C ∧ (applyOp s op).rendered.items.length ≤ C := by
  cases op with
  | produce =>
    refine ⟨?_, ?_, hrm, hrl⟩
    · show (qPut s.buffer s.nextIndex).1.maxsize = C
      rw [qPut_maxsize, hbm]
    · show (qPut s.buffer s.nextIndex).1.items.length ≤ C
      rw [← hbm]
      exact qPut_length_le s.buffer s.nextIndex (hbm ▸ hbl) (hbm ▸ hC)
  | consume =>
    simp only [applyOp]
    split
    · exact ⟨hbm, hbl, hrm, hrl⟩
    · next x b hq =>
      obtain ⟨hit, hm⟩ := qGet_some hq
      refine ⟨hm.trans hbm, ?_, hrm, hrl⟩
      show b.items.length ≤ C
      have hlen : s.buffer.items.length = b.items.length + 1 := by rw [hit]; rfl
      omega
  | skip =>
    simp only [applyOp]
    split
    · exact ⟨hbm, hbl, hrm, hrl⟩
    · next x b hq =>
      obtain ⟨hit, hm⟩ := qGet_some hq
      refine ⟨hm.trans hbm, ?_, hrm, hrl⟩
      show b.items.length ≤ C
      have hlen : s.buffer.items.length = b.items.length + 1 := by rw [hit]; rfl
      omega
  | preRender =>
    simp only [applyOp]
    split
    · exact ⟨hbm, hbl, hrm, hrl⟩
    · next x b hq =>
      obtain ⟨hit, hm⟩ := qGet_some hq
      have hbm2 : b.maxsize = C := hm.trans hbm
      have hbl2 : b.items.length ≤ C := by
        have hlen : s.buffer.items.length = b.items.length + 1 := by rw [hit]; rfl
        omega
      split
      · next r hr =>
        refine ⟨?_, ?_, ?_, ?_⟩
        · show (qPut b x).1.maxsize = C
          rw [qPut_maxsize, hbm2]
        · show (qPut b x).1.items.length ≤ C
          rw [← hbm2]
          exact qPut_length_le b x (hbm2 ▸ hbl2) (hbm2 ▸ hC)
        · show r.maxsize = C
          have h1 : (qPut s.rendered x).1.maxsize = s.rendered.maxsize :=
            qPut_maxsize s.rendered x
          rw [hr] at h1
          exact h1.trans hrm
        · show r.items.length ≤ C
          have h1 := qPut_length_le s.rendered x (hrm ▸ hrl) (hrm ▸ hC)
          rw [hr, hrm] at h1
          exact h1
      · next r hr =>
        exact ⟨hbm2, hbl2, hrm, hrl⟩
  | consumeRendered =>
    simp only [applyOp]
    split
    · exact ⟨hbm, hbl, hrm, hrl⟩
    · next x r hq =>
      obtain ⟨hit, hm⟩ := qGet_some hq
      refine ⟨hbm, hbl, hm.trans hrm, ?_⟩
      show r.items.length ≤ C
      have hlen : s.rendered.items.length = r.items.length + 1 := by rw [hit]; rfl
      omega

theorem applyOps_bounds (C : Nat) (hC : 0 < C) (ops : List BufferOp) (s : BufferState)
    (hbm : s.buffer.maxsize = C) (hbl : s.buffer.items.length ≤ C)
    (hrm : s.rendered.maxsize = C) (hrl : s.rendered.items.length ≤ C) :
    (applyOps s ops).buffer.maxsize = C ∧ (applyOps s ops).buffer.items.length ≤ C ∧
    (applyOps s ops).rendered.maxsize = C ∧ (applyOps s ops).rendered.items.length ≤ C := by
  induction ops generalizing s with
  | nil => exact ⟨hbm, hbl, hrm, hrl⟩
  | cons op rest ih =>
    have h := applyOp_bounds C hC s hbm hbl hrm hrl op
    exact ih (applyOp s op) h.1 h.2.1 h.2.2.1 h.2.2.2

/-- C7: for every sequence of `put`/`get`/`skip` operations (pre-rendering
included) on a buffer of capacity `C > 0`, the occupancy after every prefix of
the sequence satisfies `0 ≤ size ≤ C`, and a `put` on a full queue returns it
unchanged — no stored frame is ever displaced. -/
theorem frame_buffer_occupancy (C : Nat) (hC : 0 < C) (ops : List BufferOp) (n : Nat) :
    (0 ≤ (applyOps (initState C) (ops.take n)).buffer.items.length ∧
      (applyOps (initState C) (ops.take n)).buffer.items.length ≤ C) ∧
    (∀ (q : BoundedQueue) (x : Nat), q.maxsize = C → q.items.length = C →
      qPut q x = (q, false)) := by
  refine ⟨⟨Nat.zero_le _, ?_⟩, ?_⟩
  · exact (applyOps_bounds C hC (ops.take n) (initState C) rfl (by simp [initState])
      rfl (by simp [initState])).2.1
  · intro q x hm hl
    exact qPut_full q x (hm ▸ hC) (hl.trans hm.symm)

/-! ### Delivery order (C1) and producer-side drops (C2)

Without the pre-render worker, the main buffer is a plain FIFO: the frames
handed out by `get_frame` carry strictly increasing sequence indices, and a
frame discarded by `skip_frames` is never handed out afterwards.  The
invariant below is what makes the induction go through. -/

structure Orderly (s : BufferState) : Prop where
  buf_sorted : s.buffer.items.Pairwise (· < ·)
  buf_lt_next : ∀ x ∈ s.buffer.items, x < s.nextIndex
  delivered_sorted : s.delivered.Pairwise (· < ·)
  delivered_lt_buf : ∀ d ∈ s.delivered, ∀ x ∈ s.buffer.items, d < x
  delivered_lt_next : ∀ d ∈ s.delivered, d < s.nextIndex
  skipped_lt_buf : ∀ k ∈ s.skipped, ∀ x ∈ s.buffer.items, k < x
  skipped_lt_next : ∀ k ∈ s.skipped, k < s.nextIndex
  skipped_not_delivered : ∀ k ∈ s.skipped, k ∉ s.delivered

theorem orderly_init (C : Nat) : Orderly (initState C) := by
  refine ⟨?_, ?_, ?_, ?_, ?_, ?_, ?_, ?_⟩ <;> simp [initState]

theorem applyOp_orderly (s : BufferState) (op : BufferOp) (hop : op ≠ BufferOp.preRender)
    (h : Orderly s) : Orderly (applyOp s op) := by
  cases op with
  | preRender => exact absurd rfl hop
  | produce =>
    rcases qPut_fst_cases s.buffer s.nextIndex with hq | hq
    · refine ⟨?_, ?_, h.delivered_sorted, ?_, ?_, ?_, ?_, h.skipped_not_delivered⟩
      · show (qPut s.buffer s.nextIndex).1.items.Pairwise (· < ·)
        rw [hq]; exact h.buf_sorted
      · show ∀ x ∈ (qPut s.buffer s.nextIndex).1.items, x < s.nextIndex + 1
        rw [hq]
        exact fun x hx => Nat.lt_succ_of_lt (h.buf_lt_next x hx)
      · show ∀ d ∈ s.delivered, ∀ x ∈ (qPut s.buffer s.nextIndex).1.items, d < x
        rw [hq]; exact h.delivered_lt_buf
      · exact fun d hd => Nat.lt_succ_of_lt (h.delivered_lt_next d hd)
      · show ∀ k ∈ s.skipped, ∀ x ∈ (qPut s.buffer s.nextIndex).1.items, k < x
        rw [hq]; exact h.skipped_lt_buf
      · exact fun k hk => Nat.lt_succ_of_lt (h.skipped_lt_next k hk)
    · refine ⟨?_, ?_, h.delivered_sorted, ?_, ?_, ?_, ?_, h.skipped_not_delivered⟩
      · show (qPut s.buffer s.nextIndex).1.items.Pairwise (· < ·)
        rw [hq]
        refine List.pairwise_append.mpr ⟨h.buf_sorted, List.pairwise_singleton _ _, ?_⟩
        intro x hx y hy
        rw [List.mem_singleton] at hy
        exact hy ▸ h.buf_lt_next x hx
      · show ∀ x ∈ (qPut s.buffer s.nextIndex).1.items, x < s.nextIndex + 1
        rw [hq]
        intro x hx
        rcases List.mem_append.mp hx with hx | hx
        · exact Nat.lt_succ_of_lt (h.buf_lt_next x hx)
        · rw [List.mem_singleton] at hx
          exact hx ▸ Nat.lt_succ_self _
      · show ∀ d ∈ s.delivered, ∀ x ∈ (qPut s.buffer s.nextIndex).1.items, d < x
        rw [hq]
        intro d hd x hx
        rcases List.mem_append.mp hx with hx | hx
        · exact h.delivered_lt_buf d hd x hx
        · rw [List.mem_singleton] at hx
          exact hx ▸ h.delivered_lt_next d hd
      · exact fun d hd => Nat.lt_succ_of_lt (h.delivered_lt_next d hd)
      · show ∀ k ∈ s.skipped, ∀ x ∈ (qPut s.buffer s.nextIndex).1.items, k < x
        rw [hq]
        intro k hk x hx
        rcases List.mem_append.mp hx with hx | hx
        · exact h.skipped_lt_buf k hk x hx
        · rw [List.mem_singleton] at hx
          exact hx ▸ h.skipped_lt_next k hk
      · exact fun k hk => Nat.lt_succ_of_lt (h.skipped_lt_next k hk)
  | consume =>
    simp only [applyOp]
    split
    · exact h
    · next x b hq =>
      obtain ⟨hit, _⟩ := qGet_some hq
      have hhead : ∀ y ∈ b.items, x < y := by
        intro y hy
        exact List.rel_of_pairwise_cons (hit ▸ h.buf_sorted) hy
      have hxmem : x ∈ s.buffer.items := by rw [hit]; exact List.mem_cons_self x b.items
      refine ⟨?_, ?_, ?_, ?_, ?_, ?_, h.skipped_lt_next, ?_⟩
      · exact List.Pairwise.of_cons (hit ▸ h.buf_sorted)
      · exact fun y hy => h.buf_lt_next y (hit ▸ List.mem_cons_of_mem x hy)
      · refine List.pairwise_append.mpr
          ⟨h.delivered_sorted, List.pairwise_singleton _ _, ?_⟩
        intro d hd y hy
        rw [List.mem_singleton] at hy
        exact hy ▸ h.delivered_lt_buf d hd x hxmem
      · intro d hd y hy
        rcases List.mem_append.mp hd with hd | hd
        · exact h.delivered_lt_buf d hd y (hit ▸ List.mem_cons_of_mem x hy)
        · rw [List.mem_singleton] at hd
          exact hd ▸ hhead y hy
      · intro d hd
        rcases List.mem_append.mp hd with hd | hd
        · exact h.delivered_lt_next d hd
        · rw [List.mem_singleton] at hd
          exact hd ▸ h.buf_lt_next x hxmem
      · exact fun k hk y hy => h.skipped_lt_buf k hk y (hit ▸ List.mem_cons_of_mem x hy)
      · intro k hk hmem
        rcases List.mem_append.mp hmem with hmem | hmem
        · exact h.skipped_not_delivered k hk hmem
        · rw [List.mem_singleton] at hmem
          exact absurd (hmem ▸ h.skipped_lt_buf k hk x hxmem) (lt_irrefl k)
  | skip =>
    simp only [applyOp]
    split
    · exact h
    · next x b hq =>
      obtain ⟨hit, _⟩ := qGet_some hq
      have hhead : ∀ y ∈ b.items, x < y := by
        intro y hy
        exact List.rel_of_pairwise_cons (hit ▸ h.buf_sorted) hy
      have hxmem : x ∈ s.buffer.items := by rw [hit]; exact List.mem_cons_self x b.items
      refine ⟨?_, ?_, h.delivered_sorted, ?_, h.delivered_lt_next, ?_, ?_, ?_⟩
      · exact List.Pairwise.of_cons (hit ▸ h.buf_sorted)
      · exact fun y hy => h.buf_lt_next y (hit ▸ List.mem_cons_of_mem x hy)
      · exact fun d hd y hy => h.delivered_lt_buf d hd y (hit ▸ List.mem_cons_of_mem x hy)
      · intro k hk y hy
        rcases List.mem_append.mp hk with hk | hk
        · exact h.skipped_lt_buf k hk y (hit ▸ List.mem_cons_of_mem x hy)
        · rw [List.mem_singleton] at hk
          exact hk ▸ hhead y hy
      · intro k hk
        rcases List.mem_append.mp hk with hk | hk
        · exact h.skipped_lt_next k hk
        · rw [List.mem_singleton] at hk
          exact hk ▸ h.buf_lt_next x hxmem
      · intro k hk hmem
        rcases List.mem_append.mp hk with hk | hk
        · exact h.skipped_not_delivered k hk hmem
        · rw [List.mem_singleton] at hk
          exact absurd (hk ▸ h.delivered_lt_buf _ hmem x hxmem) (lt_irrefl x)
  | consumeRendered =>
    simp only [applyOp]
    split
    · exact h
    · next x r hq =>
      exact ⟨h.buf_sorted, h.buf_lt_next, h.delivered_sorted, h.delivered_lt_buf,
        h.delivered_lt_next, h.skipped_lt_buf, h.skipped_lt_next,
        h.skipped_not_delivered⟩

theorem applyOps_orderly (ops : List BufferOp) (s : BufferState)
    (hops : ∀ op ∈ ops, op ≠ BufferOp.preRender) (h : Orderly s) :
    Orderly (applyOps s ops) := by
  induction ops generalizing s with
  | nil => exact h
  | cons op rest ih =>
    exact ih (applyOp s op)
      (fun o ho => hops o (List.mem_cons_of_mem op ho))
      (applyOp_orderly s op (hops op (List.mem_cons_self op rest)) h)

/-- C1 (amended): in any interleaving of frame production, `get_frame`, and
`skip_frames` in which the pre-render worker takes no step, the frames
delivered by `get_frame` carry strictly increasing sequence indices (so none
is delivered twice), and no frame discarded by `skip_frames` is ever
delivered. -/
theorem frame_delivery_order (C : Nat) (ops : List BufferOp)
    (hops : ∀ op ∈ ops, op ≠ BufferOp.preRender) :
    (applyOps (initState C) ops).delivered.Pairwise (· < ·) ∧
    ∀ k ∈ (applyOps (initState C) ops).skipped,
      k ∉ (applyOps (initState C) ops).delivered := by
  have h := applyOps_orderly ops (initState C) hops (orderly_init C)
  exact ⟨h.delivered_sorted, h.skipped_not_delivered⟩

theorem frame_delivery_order_witness :
    (applyOps (initState 3) [.produce, .produce, .produce, .skip, .consume,
      .consume]).delivered.Pairwise (· < ·) ∧
    0 ∉ (applyOps (initState 3) [.produce, .produce, .produce, .skip,
      .consume, .consume]).delivered :=
  ⟨(frame_delivery_order 3
      [.produce, .produce, .produce, .skip, .consume, .consume] (by decide)).1,
   (frame_delivery_order 3
      [.produce, .produce, .produce, .skip, .consume, .consume] (by decide)).2
     0 (by decide)⟩

/-- C1 (counterexample): one `_pre_render_frames` iteration interleaved with
`get_frame` on the same buffer breaks the claimed ordering.  The worker pops
frame 0, re-inserts it at the TAIL of the main buffer (after frame 1), and
also exposes it through `rendered_buffer`; the renderer then receives
index 1 before index 0 from `get_frame`, and index 0 twice in total. -/
theorem frame_delivery_order_cex :
    (applyOps (initState 10) [.produce, .produce, .preRender, .consumeRendered,
      .consume, .consume]).delivered = [1, 0] ∧
    (applyOps (initState 10) [.produce, .produce, .preRender, .consumeRendered,
      .consume, .consume]).deliveredRendered = [0] ∧
    ¬ (applyOps (initState 10) [.produce, .produce, .preRender, .consumeRendered,
      .consume, .consume]).delivered.Pairwise (· < ·) := by
  refine ⟨by decide, by decide, fun hp => ?_⟩
  rw [show (applyOps (initState 10) [.produce, .produce, .preRender,
    .consumeRendered, .consume, .consume]).delivered = [1, 0] from by decide] at hp
  exact absurd (List.rel_of_pairwise_cons hp (List.mem_singleton.mpr rfl)) (by omega)

/-- C2 (counterexample): with capacity 1, the second frame's `put` finds the
buffer full and times out; the extraction loop drops the frame and moves on
(`nextIndex` advances to 2) but `skipped_frames` stays 0 — the counter is NOT
incremented for the dropped frame. -/
theorem producer_drop_cex :
    (applyOps (initState 1) [.produce, .produce]).buffer.items = [0] ∧
    (applyOps (initState 1) [.produce, .produce]).nextIndex = 2 ∧
    (applyOps (initState 1) [.produce, .produce]).skipped_frames = 0 := by
  decide

theorem applyOp_skip_counter (t : BufferState) (h : t.buffer.items ≠ []) :
    (applyOp t .skip).skipped_frames = t.skipped_frames + 1 := by
  simp only [applyOp]
  split
  · next hq => exact absurd (qGet_none hq) h
  · next x b hq => rfl

/-- C2 (amended): when a producer-side `put` times out on a full buffer the
frame is dropped and extraction continues with the next frame, the buffer's
stored frames are never overwritten (production only appends), and the
skipped-frame counter is NOT touched by the producer — it is incremented only
by consumer-side `skip_frames`. -/
theorem producer_drop_behavior (n : Nat) (s : BufferState) :
    (applyOps s (List.replicate n .produce)).skipped_frames = s.skipped_frames ∧
    (applyOps s (List.replicate n .produce)).nextIndex = s.nextIndex + n ∧
    (∃ added, (applyOps s (List.replicate n .produce)).buffer.items =
      s.buffer.items ++ added) ∧
    (∀ t : BufferState, t.buffer.items ≠ [] →
      (applyOp t .skip).skipped_frames = t.skipped_frames + 1) := by
  induction n generalizing s with
  | zero => exact ⟨rfl, rfl, ⟨[], (List.append_nil _).symm⟩, applyOp_skip_counter⟩
  | succ n ih =>
    have hstep : applyOps s (List.replicate (n + 1) .produce) =
        applyOps (applyOp s .produce) (List.replicate n .produce) := by
      rw [List.replicate_succ]
      rfl
    obtain ⟨ih1, ih2, ⟨a2, ih3⟩, _⟩ := ih (applyOp s .produce)
    refine ⟨hstep ▸ ih1, ?_, ?_, applyOp_skip_counter⟩
    · rw [hstep, ih2]
      show s.nextIndex + 1 + n = s.nextIndex + (n + 1)
      omega
    · rcases qPut_fst_cases s.buffer s.nextIndex with hq | hq
      · refine ⟨a2, ?_⟩
        rw [hstep, ih3]
        show (qPut s.buffer s.nextIndex).1.items ++ a2 = s.buffer.items ++ a2
        rw [hq]
      · refine ⟨s.nextIndex :: a2, ?_⟩
        rw [hstep, ih3]
        show (qPut s.buffer s.nextIndex).1.items ++ a2 = s.buffer.items ++ s.nextIndex :: a2
        rw [hq]
        simp

theorem producer_drop_behavior_witness :
    (applyOps (initState 1) (List.replicate 2 .produce)).skipped_frames = 0 ∧
    (applyOp (applyOps (initState 1) [.produce]) .skip).skipped_frames =
      (applyOps (initState 1) [.produce]).skipped_frames + 1 :=
  ⟨(producer_drop_behavior 2 (initState 1)).1,
   (producer_drop_behavior 2 (initState 1)).2.2.2 _ (by decide)⟩

theorem frame_buffer_occupancy_witness :
    0 < 2 ∧
    (applyOps (initState 2) ([.produce, .produce, .produce, .consume,
      .skip, .produce].take 5)).buffer.items.length ≤ 2 ∧
    qPut ⟨2, [5, 9]⟩ 7 = (⟨2, [5, 9]⟩, false) :=
  ⟨by decide,
   (frame_buffer_occupancy 2 (by decide)
     [.produce, .produce, .produce, .consume, .skip, .produce] 5).1.2,
   (frame_buffer_occupancy 2 (by decide)
     [.produce, .produce, .produce, .consume, .skip, .produce] 5).2
     ⟨2, [5, 9]⟩ 7 rfl rfl⟩

/-! ## The preload gate of `start_extraction` (C8)

After spawning the extraction thread, `start_extraction` polls
`buffer.qsize()` every 0.1 s until either `preload_frames` frames are
buffered or a 10-second timeout elapses; on timeout with at least one frame
buffered it still declares preload complete ("partial preload"). -/

structure PreloadResult where
  preload_complete : Bool
  viaTimeout : Bool
  count : Nat
deriving DecidableEq, Repr

/-- The polling loop, one list element per iteration: the element records the
`is_extracting` flag and the `buffer.qsize()` value read in that iteration;
the list running out models the 10-second timeout.  `pc` is `preload_count`
(0 on entry).  `some q` means the loop set `preload_complete` after reading
count `q`; `none` means it ended without doing so. -/
def preload_loop (pf : Nat) (pc : Nat) : List (Bool × Nat) → Option Nat
  | [] => none
  | (ex, q) :: rest =>
    if pc < pf then
      if ex = false then none
      else if pf ≤ q then some q
      else preload_loop pf q rest
    else none

/-- The whole gate: run the loop, then the partial-preload fallback, where
`finalQ` is the `buffer.qsize()` read after the loop. -/
def start_extraction_preload (pf : Nat) (obs : List (Bool × Nat)) (finalQ : Nat) :
    PreloadResult :=
  match preload_loop pf 0 obs with
  | some q => ⟨true, false, q⟩
  | none => if 0 < finalQ then ⟨true, true, finalQ⟩ else ⟨false, false, finalQ⟩

theorem preload_loop_none_iff (pf : Nat) (obs : List (Bool × Nat)) :
    ∀ pc, (∀ o ∈ obs, o.1 = true) → pc < pf →
    (preload_loop pf pc obs = none ↔ ∀ o ∈ obs, o.2 < pf) := by
  induction obs with
  | nil =>
    intro pc hex hpc
    simp [preload_loop]
  | cons o rest ih =>
    intro pc hex hpc
    obtain ⟨ex, q⟩ := o
    have hext : ex = true := hex _ (List.mem_cons_self _ _)
    subst hext
    rw [List.forall_mem_cons]
    simp only [preload_loop, if_pos hpc]
    rw [if_neg (by simp : ¬ (true = false))]
    by_cases hq : pf ≤ q
    · rw [if_pos hq]
      constructor
      · intro h
        exact Option.noConfusion h
      · intro h
        exact absurd h.1 (by omega)
    · rw [if_neg hq]
      have hq2 : q < pf := Nat.not_le.mp hq
      rw [ih q (fun o ho => hex o (List.mem_cons_of_mem _ ho)) hq2]
      exact ⟨fun h => ⟨hq2, h⟩, fun h => h.2⟩

/-- C8: with the extraction thread alive throughout the gate,
(1) the loop declares preload complete (not via timeout) exactly when some
polled buffer count reaches `preload_frames`;
(2) if every polled count stays below `preload_frames` (the timeout case) but
at least one frame is buffered afterwards, preload completes in the partial
state reporting that count;
(3) if additionally no frame is buffered, preload does not complete. -/
theorem preload_gate (pf : Nat) (obs : List (Bool × Nat)) (finalQ : Nat)
    (hpf : 0 < pf) (hex : ∀ o ∈ obs, o.1 = true) :
    (((start_extraction_preload pf obs finalQ).preload_complete = true ∧
        (start_extraction_preload pf obs finalQ).viaTimeout = false) ↔
      ∃ o ∈ obs, pf ≤ o.2) ∧
    ((∀ o ∈ obs, o.2 < pf) → 0 < finalQ →
      start_extraction_preload pf obs finalQ = ⟨true, true, finalQ⟩) ∧
    ((∀ o ∈ obs, o.2 < pf) → finalQ = 0 →
      (start_extraction_preload pf obs finalQ).preload_complete = false) := by
  have hiff := preload_loop_none_iff pf obs 0 hex hpf
  refine ⟨?_, ?_, ?_⟩
  · rcases hloop : preload_loop pf 0 obs with _ | q
    · have hall : ∀ o ∈ obs, o.2 < pf := hiff.mp hloop
      have hnone : ¬ ∃ o ∈ obs, pf ≤ o.2 := by
        rintro ⟨o, ho, hle⟩
        exact absurd (hall o ho) (by omega)
      unfold start_extraction_preload
      rw [hloop]
      constructor
      · intro h
        by_cases hfq : 0 < finalQ
        · rw [if_pos hfq] at h
          exact absurd h.2 (by simp)
        · rw [if_neg hfq] at h
          exact absurd h.1 (by simp)
      · intro h
        exact absurd h hnone
    · have hsome : ∃ o ∈ obs, pf ≤ o.2 := by
        by_contra hcon
        push_neg at hcon
        have : preload_loop pf 0 obs = none := hiff.mpr (fun o ho => hcon o ho)
        rw [hloop] at this
        exact Option.noConfusion this
      unfold start_extraction_preload
      rw [hloop]
      exact ⟨fun _ => hsome, fun _ => ⟨rfl, rfl⟩⟩
  · intro hall hfq
    unfold start_extraction_preload
    rw [hiff.mpr hall, if_pos hfq]
  · intro hall hfq
    unfold start_extraction_preload
    rw [hiff.mpr hall, if_neg (by omega)]

theorem preload_gate_witness :
    ((start_extraction_preload 10 [(true, 3), (true, 7), (true, 10)] 10).preload_complete
        = true ∧
      (start_extraction_preload 10 [(true, 3), (true, 7), (true, 10)] 10).viaTimeout
        = false) ∧
    start_extraction_preload 10 [(true, 1), (true, 2), (true, 3)] 3 =
      ⟨true, true, 3⟩ := by
  constructor
  · exact (preload_gate 10 [(true, 3), (true, 7), (true, 10)] 10 (by decide)
      (by decide)).1.mpr ⟨(true, 10), by decide, by decide⟩
  · exact (preload_gate 10 [(true, 1), (true, 2), (true, 3)] 3 (by decide)
      (by decide)).2.1 (by decide) (by decide)

/-! ## `PerformanceAnalyzer` (C3)

`get_adaptive_parameters` compares the measured fps against
`get_optimal_fps()` — the target fps capped by the detected hardware
capability — at thresholds 0.7 and 0.9.  All arithmetic is exact here; the
Python floats 0.7, 0.9, 1.1 only matter through the comparisons below, none
of which sits on a floating-point boundary in the counterexamples used. -/

inductive Capability
  | low
  | medium
  | high
deriving DecidableEq, Repr

structure AdaptiveParams where
  fps : ℚ
  smoothness : ℚ
  skip_ratio : ℚ
deriving DecidableEq, Repr

def get_optimal_fps : Capability → ℚ → ℚ
  | .low, target_fps => min 15 target_fps
  | .medium, target_fps => min 24 target_fps
  | .high, target_fps => target_fps

/-- `get_adaptive_parameters`, with `current_fps` the value of
`get_current_fps()` and `optimal_fps` of `get_optimal_fps()`. -/
def get_adaptive_parameters (current_fps optimal_fps : ℚ) : AdaptiveParams :=
  if current_fps < optimal_fps * (7/10) then
    ⟨max 12 (current_fps * (11/10)), 8/10, 2/10⟩
  else if current_fps < optimal_fps * (9/10) then
    ⟨optimal_fps * (9/10), 9/10, 1/10⟩
  else
    ⟨optimal_fps, 1, 0⟩

/-- The claim's rule, as stated: thresholds 0.85 and 0.6 on the ratio
achieved/target. -/
def adaptive_parameters_claim (achieved target : ℚ) : AdaptiveParams :=
  if 85/100 < achieved / target then ⟨target, 1, 0⟩
  else if 6/10 < achieved / target then ⟨target * (9/10), 9/10, 1/10⟩
  else ⟨max 12 (achieved * (11/10)), 8/10, 2/10⟩

/-- C3 (counterexample): at achieved = 22, target = 24 on high-capability
hardware (so optimal = target), the ratio is 22/25 = 0.88 > 0.85, for which
the claim requires `{fps: target, smoothness: 1.0}`; the code's branch point
is 0.9, so it returns `{fps: 22.5, smoothness: 0.9}` instead. -/
theorem adaptive_parameters_cex :
    (85:ℚ)/100 < 22/25 ∧
    adaptive_parameters_claim 22 25 = ⟨25, 1, 0⟩ ∧
    get_adaptive_parameters 22 (get_optimal_fps .high 25) = ⟨45/2, 9/10, 1/10⟩ ∧
    get_adaptive_parameters 22 (get_optimal_fps .high 25) ≠
      adaptive_parameters_claim 22 25 := by
  refine ⟨by norm_num, ?_, ?_, ?_⟩
  · unfold adaptive_parameters_claim
    rw [if_pos (by norm_num)]
  · show get_adaptive_parameters 22 25 = ⟨45/2, 9/10, 1/10⟩
    unfold get_adaptive_parameters
    rw [if_neg (by norm_num), if_pos (by norm_num)]
    norm_num
  · show get_adaptive_parameters 22 25 ≠ adaptive_parameters_claim 22 25
    unfold get_adaptive_parameters adaptive_parameters_claim
    rw [if_neg (by norm_num), if_pos (by norm_num), if_pos (by norm_num)]
    intro h
    have := congrArg AdaptiveParams.smoothness h
    norm_num at this

/-- C3 (amended): the code's branch points are 0.7 and 0.9 against the
capability-capped optimal fps: ratio ≥ 0.9 gives the standard parameters,
0.7 ≤ ratio < 0.9 gives `{fps: optimal*0.9, smoothness: 0.9, skip: 0.1}`,
ratio < 0.7 gives `{fps: max(12, achieved*1.1), smoothness: 0.8, skip: 0.2}`.
The claim's worked example achieved=20, target=24 (ratio 5/6) falls in the
middle band and still yields smoothness 0.9 and fps 21.6. -/
theorem adaptive_parameters_thresholds (current optimal : ℚ) (hpos : 0 < optimal) :
    (9/10 ≤ current / optimal →
      get_adaptive_parameters current optimal = ⟨optimal, 1, 0⟩) ∧
    (7/10 ≤ current / optimal → current / optimal < 9/10 →
      get_adaptive_parameters current optimal = ⟨optimal * (9/10), 9/10, 1/10⟩) ∧
    (current / optimal < 7/10 →
      get_adaptive_parameters current optimal = ⟨max 12 (current * (11/10)), 8/10, 2/10⟩) := by
  have h7 : current / optimal < 7/10 ↔ current < optimal * (7/10) := by
    rw [div_lt_iff₀ hpos]
    exact ⟨fun h => by linarith, fun h => by linarith⟩
  have h9 : current / optimal < 9/10 ↔ current < optimal * (9/10) := by
    rw [div_lt_iff₀ hpos]
    exact ⟨fun h => by linarith, fun h => by linarith⟩
  refine ⟨?_, ?_, ?_⟩
  · intro h
    unfold get_adaptive_parameters
    rw [if_neg, if_neg]
    · rw [← h9]
      exact not_lt.mpr h
    · rw [← h7]
      exact not_lt.mpr (by linarith)
  · intro h1 h2
    unfold get_adaptive_parameters
    rw [if_neg, if_pos (h9.mp h2)]
    rw [← h7]
    exact not_lt.mpr h1
  · intro h
    unfold get_adaptive_parameters
    rw [if_pos (h7.mp h)]

theorem adaptive_parameters_thresholds_witness :
    (0:ℚ) < 24 ∧
    get_adaptive_parameters 20 (get_optimal_fps .high 24) = ⟨108/5, 9/10, 1/10⟩ := by
  refine ⟨by norm_num, ?_⟩
  have h := (adaptive_parameters_thresholds 20 24 (by norm_num)).2.1
    (by norm_num) (by norm_num)
  show get_adaptive_parameters 20 24 = ⟨108/5, 9/10, 1/10⟩
  rw [h]
  norm_num

/-! ## `TerminalRenderer.rgb_to_ansi` (C4, C10)

The Python code computes `int(r / 255 * 5)` (truncation) and, on the
grayscale branch, `int(r / 255.0 * 23 + 0.5)`.  For channel values 0..255
these floating-point expressions equal the integer divisions `r * 5 / 255`
and `(r * 46 + 255) / 510`: the exact rational value is a multiple of 1/51
(resp. an odd multiple of 1/510), so it is never within a double-precision
rounding error of crossing an integer boundary, and at the exact integer
points the float product rounds to the integer itself. -/

def rgb_to_ansi (r g b : Nat) : Nat :=
  if r = g ∧ g = b then
    if r = 0 then 16
    else if r = 255 then 231
    else 232 + (r * 46 + 255) / 510
  else 16 + r * 5 / 255 * 36 + g * 5 / 255 * 6 + b * 5 / 255

/-- The claim's cube quantizer, as stated: each channel is rounded to the
NEAREST of the 6 levels, `level = round(channel/255*5)`; no channel value
produces an exact half-integer, so nearest rounding is unambiguous. -/
def rgb_to_ansi_claim (r g b : Nat) : ℤ :=
  16 + round ((r:ℚ)/255*5) * 36 + round ((g:ℚ)/255*5) * 6 + round ((b:ℚ)/255*5)

/-- C4 (counterexample): for the non-grayscale input (128, 0, 0) the exact
red level is 128/51 ≈ 2.51, which rounds to 3 (claimed code 124) but
truncates to 2; the code returns 88. -/
theorem rgb_to_ansi_cex :
    ¬((128:Nat) = 0 ∧ (0:Nat) = 0) ∧
    rgb_to_ansi 128 0 0 = 88 ∧
    rgb_to_ansi_claim 128 0 0 = 124 ∧
    (88 : ℤ) ≠ 124 := by
  refine ⟨by decide, by decide, ?_, by decide⟩
  unfold rgb_to_ansi_claim
  simp only [round_eq]
  push_cast
  rw [show (128:ℚ)/255*5 + 1/2 = 307/102 by norm_num,
      show (0:ℚ)/255*5 + 1/2 = 1/2 by norm_num,
      show ⌊(307:ℚ)/102⌋ = 3 from by rw [Int.floor_eq_iff] <;> norm_num,
      show ⌊(1:ℚ)/2⌋ = 0 from by rw [Int.floor_eq_iff] <;> norm_num]
  norm_num

/-- Nat division agrees with the rational floor of the claim's level
formula. -/
theorem floor_level_eq (c : Nat) : ⌊(c:ℚ)/255*5⌋₊ = c * 5 / 255 := by
  rw [show (c:ℚ)/255*5 = ((c * 5 : ℕ):ℚ) / ((255:ℕ):ℚ) from by push_cast; ring]
  rw [Nat.floor_div_nat, Nat.floor_natCast]

/-- C4 (amended): on non-grayscale inputs with channels in [0,255] the code
maps each channel into the 6×6×6 cube by TRUNCATING `channel/255*5` to an
integer level (not rounding to nearest), and returns
`16 + r_level*36 + g_level*6 + b_level`. -/
theorem rgb_to_ansi_truncates (r g b : Nat) (hr : r ≤ 255) (hg : g ≤ 255)
    (hb : b ≤ 255) (hne : ¬(r = g ∧ g = b)) :
    rgb_to_ansi r g b =
      16 + ⌊(r:ℚ)/255*5⌋₊ * 36 + ⌊(g:ℚ)/255*5⌋₊ * 6 + ⌊(b:ℚ)/255*5⌋₊ := by
  unfold rgb_to_ansi
  rw [if_neg hne, floor_level_eq, floor_level_eq, floor_level_eq]

theorem rgb_to_ansi_truncates_witness :
    ((200:Nat) ≤ 255 ∧ (100:Nat) ≤ 255 ∧ (50:Nat) ≤ 255 ∧
      ¬((200:Nat) = 100 ∧ (100:Nat) = 50)) ∧
    rgb_to_ansi 200 100 50 =
      16 + ⌊(200:ℚ)/255*5⌋₊ * 36 + ⌊(100:ℚ)/255*5⌋₊ * 6 + ⌊(50:ℚ)/255*5⌋₊ :=
  ⟨⟨by decide, by decide, by decide, by decide⟩,
   rgb_to_ansi_truncates 200 100 50 (by decide) (by decide) (by decide) (by decide)⟩

/-- C10: for all channels in [0,255] the quantizer is total and lands in
[16,255], never in the 16 system colors 0–15: non-grayscale inputs yield a
cube code in 16–231, and grayscale inputs yield 16 for black, 231 for white,
and a ramp code in 232–255 otherwise. -/
theorem rgb_to_ansi_range (r g b : Nat) (hr : r ≤ 255) (hg : g ≤ 255) (hb : b ≤ 255) :
    16 ≤ rgb_to_ansi r g b ∧ rgb_to_ansi r g b ≤ 255 ∧
    (¬(r = g ∧ g = b) → rgb_to_ansi r g b ≤ 231) ∧
    ((r = g ∧ g = b) →
      (r = 0 → rgb_to_ansi r g b = 16) ∧
      (r = 255 → rgb_to_ansi r g b = 231) ∧
      (0 < r → r < 255 →
        232 ≤ rgb_to_ansi r g b ∧ rgb_to_ansi r g b ≤ 255)) := by
  unfold rgb_to_ansi
  split_ifs with h1 h2 h3 <;> omega

theorem rgb_to_ansi_range_witness :
    ((128:Nat) ≤ 255 ∧ (200:Nat) ≤ 255 ∧ (30:Nat) ≤ 255) ∧
    (16 ≤ rgb_to_ansi 128 200 30 ∧ rgb_to_ansi 128 200 30 ≤ 255 ∧
      (¬((128:Nat) = 200 ∧ (200:Nat) = 30) → rgb_to_ansi 128 200 30 ≤ 231) ∧
      (((128:Nat) = 200 ∧ (200:Nat) = 30) →
        ((128:Nat) = 0 → rgb_to_ansi 128 200 30 = 16) ∧
        ((128:Nat) = 255 → rgb_to_ansi 128 200 30 = 231) ∧
        (0 < 128 → (128:Nat) < 255 →
          232 ≤ rgb_to_ansi 128 200 30 ∧ rgb_to_ansi 128 200 30 ≤ 255))) :=
  ⟨⟨by decide, by decide, by decide⟩,
   rgb_to_ansi_range 128 200 30 (by decide) (by decide) (by decide)⟩

/-! ## `CompleteVideoRenderer` (C5)

`_render_video_thread` checks `self.is_cancelled` at the top of its per-frame
loop and `break`s when it is set; after the loop — on BOTH the natural and
the cancelled exit — it falls through to `_update_progress(100, ...)`, and
the `finally` clause clears `is_rendering`.  `cancel_rendering` sets the
flag, joins the thread (timeout 2 s), and clears `is_rendering` as well.
`is_complete` is `progress >= 100 and not is_rendering`. -/

structure RenderState where
  progress : ℚ
  processed_frames : Nat
  total_frames : Nat
  is_rendering : Bool
  is_cancelled : Bool
deriving DecidableEq, Repr

/-- Whether the cancellation flag, raised just before the loop reaches frame
`k`, is observed at the loop-top check for frame `i`. -/
def cancelObserved (cancelAt : Option Nat) (i : Nat) : Bool :=
  match cancelAt with
  | none => false
  | some k => decide (k ≤ i)

/-- The per-frame loop: each processed frame bumps the counter and publishes
progress `50 + processed/total*50`; an observed cancellation breaks out. -/
def render_loop (cancelAt : Option Nat) (total : Nat) :
    List Nat → Nat × ℚ → Nat × ℚ
  | [], st => st
  | i :: rest, (processed, prog) =>
    if cancelObserved cancelAt i then (processed, prog)
    else render_loop cancelAt total rest
      (processed + 1, 50 + ((processed + 1 : ℚ) / total) * 50)

/-- Final state of `_render_video_thread` over `total` extracted frames,
with the cancellation flag raised before frame `cancelAt` (if any): the
post-loop `_update_progress(100, ...)` overwrites the loop's last progress
value on every exit path, and `finally` clears `is_rendering`. -/
def render_video_thread (total : Nat) (cancelAt : Option Nat) : RenderState :=
  if total = 0 then ⟨100, 0, 0, false, cancelAt.isSome⟩
  else
    ⟨100, (render_loop cancelAt total (List.range total) (0, 50)).1, total,
      false, cancelAt.isSome⟩

/-- `cancel_rendering`: raise the flag, join the worker, clear
`is_rendering`. -/
def cancel_rendering (s : RenderState) : RenderState :=
  { s with is_cancelled := true, is_rendering := false }

/-- `is_complete`: `self.progress >= 100 and not self.is_rendering`. -/
def is_complete (s : RenderState) : Bool :=
  decide (100 ≤ s.progress) && !s.is_rendering

/-- C5 (counterexample): cancelling an in-progress run over 5 frames at
frame 2 leaves `processed_frames = 2`, yet the post-loop progress update
still reaches 100, so the subsequent `is_complete()` reports TRUE — not
false as claimed. -/
theorem cancel_is_complete_cex :
    (render_video_thread 5 (some 2)).processed_frames = 2 ∧
    is_complete (cancel_rendering (render_video_thread 5 (some 2))) = true := by
  refine ⟨?_, rfl⟩
  show (render_loop (some 2) 5 (List.range 5) (0, 50)).1 = 2
  decide

theorem render_loop_processed (k total : Nat) :
    ∀ (n s p : Nat) (pr : ℚ),
    (render_loop (some k) total (List.range' s n) (p, pr)).1 = p + min (k - s) n := by
  intro n
  induction n with
  | zero =>
    intro s p pr
    simp [render_loop]
  | succ n ih =>
    intro s p pr
    rw [List.range'_succ]
    by_cases hk : k ≤ s
    · rw [show render_loop (some k) total (s :: List.range' (s + 1) n) (p, pr) = (p, pr)
          from by
        simp only [render_loop]
        rw [if_pos]
        simp [cancelObserved, hk]]
      omega
    · rw [show render_loop (some k) total (s :: List.range' (s + 1) n) (p, pr) =
          render_loop (some k) total (List.range' (s + 1) n)
            (p + 1, 50 + ((p + 1 : ℚ) / total) * 50) from by
        simp only [render_loop]
        rw [if_neg]
        simp [cancelObserved, hk]]
      rw [ih (s + 1) (p + 1) _]
      omega

/-- C5 (amended): after `cancel_rendering` on a run cancelled mid-loop at
frame `k < total`, the worker's loop exits having processed exactly `k`
frames (cooperative cancellation, honored at the next frame check), the
worker clears `is_rendering`, and — because the post-loop code sets progress
to 100 even on the cancelled path — a subsequent `is_complete()` reports
true, not false. -/
theorem cancel_reports_complete (total k : Nat) (hk : k < total) :
    (render_video_thread total (some k)).processed_frames = k ∧
    (render_video_thread total (some k)).is_rendering = false ∧
    is_complete (cancel_rendering (render_video_thread total (some k))) = true := by
  have hpos : ¬ total = 0 := by omega
  unfold render_video_thread
  rw [if_neg hpos]
  refine ⟨?_, rfl, rfl⟩
  show (render_loop (some k) total (List.range total) (0, 50)).1 = k
  rw [List.range_eq_range', render_loop_processed k total total 0 0 50]
  omega

theorem cancel_reports_complete_witness :
    2 < 5 ∧
    ((render_video_thread 5 (some 2)).processed_frames = 2 ∧
      (render_video_thread 5 (some 2)).is_rendering = false ∧
      is_complete (cancel_rendering (render_video_thread 5 (some 2))) = true) :=
  ⟨by decide, cancel_reports_complete 5 2 (by decide)⟩

/-! ## The drift-correction step of `play_video` (C6)

Every frame, after rendering, `termimg.py` runs the synchronization block:
when sync is enabled and `frame_count % sync_interval == 0`, it computes
`drift = actual_time_elapsed - ideal_time_elapsed` and, if `|drift| > 0.05`,
either (smart-sync overload: `actual_fps < fps_threshold and drift > 0.5`)
RESETS `drift_correction` to 0, or adds the clamped correction
`max(min(-drift*0.1, 0.5), -0.5)`. -/

structure SyncConfig where
  sync_enabled : Bool
  smart_sync : Bool
  sync_interval : Nat
  fps_threshold : ℚ
deriving DecidableEq, Repr

/-- The new value of `drift_correction` after one pass over the
synchronization block. -/
def sync_step (cfg : SyncConfig) (frame_count : Nat)
    (drift actual_fps dc : ℚ) : ℚ :=
  if cfg.sync_enabled = true ∧ frame_count % cfg.sync_interval = 0 then
    if 1/20 < |drift| then
      if cfg.smart_sync = true then
        if actual_fps < cfg.fps_threshold ∧ 1/2 < drift then 0
        else dc + max (min (-drift * (1/10)) (1/2)) (-(1/2))
      else dc + max (min (-drift * (1/10)) (1/2)) (-(1/2))
    else dc
  else dc

theorem clamp_abs_le (x : ℚ) : |max (min x (1/2)) (-(1/2))| ≤ 1/2 := by
  rw [abs_le]
  exact ⟨le_max_right _ _, max_le (min_le_right _ _) (by norm_num)⟩

/-- C6 (counterexample): with smart sync on (`fps_threshold = 7`), two sync
points with drift 6 s and adequate fps accumulate `drift_correction = -1`;
the next sync point sees overload (`actual_fps = 5 < 7`, `drift = 0.6 >
0.5`) and resets the correction to 0 — an individual change of magnitude 1,
exceeding `max_correction = 0.5`, at a sync point with `|drift| > 0.05`. -/
theorem drift_correction_cex :
    sync_step ⟨true, true, 30, 7⟩ 30 6 8 0 = -(1/2) ∧
    sync_step ⟨true, true, 30, 7⟩ 60 6 8 (-(1/2)) = -1 ∧
    sync_step ⟨true, true, 30, 7⟩ 90 (3/5) 5 (-1) = 0 ∧
    (1:ℚ)/20 < |(3:ℚ)/5| ∧
    ¬ |sync_step ⟨true, true, 30, 7⟩ 90 (3/5) 5 (-1) - (-1)| ≤ 1/2 := by
  refine ⟨?_, ?_, ?_, by norm_num [abs_of_nonneg], ?_⟩ <;>
    simp only [sync_step] <;> norm_num [abs_of_nonneg, abs_of_nonpos]

/-- C6 (amended): the synchronization block leaves `drift_correction`
untouched away from sync points (`frame_count % sync_interval ≠ 0`, sync
disabled, or `|drift| ≤ 0.05`); whenever it adjusts through the clamped
correction formula — i.e. outside the smart-sync overload condition — the
individual change has magnitude at most `max_correction = 0.5` regardless of
the measured drift; but under smart-sync overload (`actual_fps <
fps_threshold` and `drift > 0.5`) it instead resets the accumulated
correction to 0, a change that can exceed 0.5. -/
theorem drift_correction_bounded (cfg : SyncConfig) (frame_count : Nat)
    (drift actual_fps dc : ℚ) :
    (¬(cfg.sync_enabled = true ∧ frame_count % cfg.sync_interval = 0) →
      sync_step cfg frame_count drift actual_fps dc = dc) ∧
    (|drift| ≤ 1/20 → sync_step cfg frame_count drift actual_fps dc = dc) ∧
    (¬(cfg.smart_sync = true ∧ actual_fps < cfg.fps_threshold ∧ 1/2 < drift) →
      |sync_step cfg frame_count drift actual_fps dc - dc| ≤ 1/2) ∧
    (cfg.smart_sync = true → actual_fps < cfg.fps_threshold → 1/2 < drift →
      cfg.sync_enabled = true → frame_count % cfg.sync_interval = 0 →
      (1/20 : ℚ) < |drift| →
      sync_step cfg frame_count drift actual_fps dc = 0) := by
  refine ⟨fun h => ?_, fun h => ?_, fun h => ?_, fun hs hf hd hen hmod habs => ?_⟩
  · unfold sync_step
    rw [if_neg h]
  · unfold sync_step
    by_cases hg : cfg.sync_enabled = true ∧ frame_count % cfg.sync_interval = 0
    · rw [if_pos hg, if_neg (not_lt.mpr h)]
    · rw [if_neg hg]
  · unfold sync_step
    by_cases hg : cfg.sync_enabled = true ∧ frame_count % cfg.sync_interval = 0
    · rw [if_pos hg]
      by_cases ha : 1/20 < |drift|
      · rw [if_pos ha]
        by_cases hsmart : cfg.smart_sync = true
        · rw [if_pos hsmart]
          have hov : ¬(actual_fps < cfg.fps_threshold ∧ 1/2 < drift) :=
            fun hc => h ⟨hsmart, hc⟩
          rw [if_neg hov]
          rw [add_sub_cancel_left]
          exact clamp_abs_le _
        · rw [if_neg hsmart, add_sub_cancel_left]
          exact clamp_abs_le _
      · rw [if_neg ha]
        simp
    · rw [if_neg hg]
      simp
  · unfold sync_step
    rw [if_pos ⟨hen, hmod⟩, if_pos habs, if_pos hs, if_pos ⟨hf, hd⟩]

theorem drift_correction_bounded_witness :
    ¬((⟨true, false, 30, 7⟩ : SyncConfig).smart_sync = true ∧
        (8:ℚ) < (⟨true, false, 30, 7⟩ : SyncConfig).fps_threshold ∧ (1:ℚ)/2 < 6) ∧
    |sync_step ⟨true, false, 30, 7⟩ 30 6 8 0 - 0| ≤ 1/2 :=
  ⟨by simp, (drift_correction_bounded ⟨true, false, 30, 7⟩ 30 6 8 0).2.2.1 (by simp)⟩

/-! ## `MemoryMonitor.is_memory_safe` (C9)

`is_memory_safe(additional_mb)` reads the current resident usage, converts
the headroom argument from MB to bytes, and checks the projected usage
strictly against the critical threshold (itself `critical_threshold_mb`
MB in bytes). -/

def mib (n : Nat) : Nat := n * 1024 * 1024

/-- `is_memory_safe`, with the freshly sampled `current_usage` and the
configured `critical_threshold` in bytes. -/
def is_memory_safe (critical_threshold current_usage additional_mb : Nat) : Bool :=
  decide (current_usage + additional_mb * 1024 * 1024 < critical_threshold)

/-- C9: `is_memory_safe` returns true iff current + additional <
critical_threshold; in particular it is false at current = 850 MB against an
800 MB threshold, and true at current = 500 MB. -/
theorem is_memory_safe_iff :
    (∀ crit cur add : Nat,
      is_memory_safe crit cur add = true ↔ cur + mib add < crit) ∧
    is_memory_safe (mib 800) (mib 850) 0 = false ∧
    is_memory_safe (mib 800) (mib 500) 0 = true := by
  refine ⟨fun crit cur add => ?_, by decide, by decide⟩
  simp [is_memory_safe, mib]

end TermImg
